import Mathlib

/-!
Verification of the core of the student-activity-to-observation plugin:
the NEIS text metrics (countChars, countBytes, estimateBytes), the TSV
parser, the report renderers, and the conversion pipeline.

JavaScript strings are modelled as lists of UTF-16 code units
(JSString is List Nat); the per-code-point loop of the alternate byte
counter is modelled on lists of Unicode code points.  IEEE-754 double
arithmetic of estimateBytes is modelled exactly with nonnegative dyadic
rationals rounded to 53 significant bits, nearest-even.
-/

/-- A JavaScript string, modelled as its sequence of UTF-16 code units. -/
abbrev JSString := List Nat

/-- UTF-16 encoding of a single Unicode code point. -/
def codePointToUtf16 (n : Nat) : List Nat :=
  if n < 65536 then [n]
  else [55296 + (n - 65536) / 1024, 56320 + (n - 65536) % 1024]

/-- UTF-16 code units of a Lean string literal, used to transcribe the
string constants of the source. -/
def utf16 (s : String) : JSString :=
  (s.data.map fun c => codePointToUtf16 c.toNat).flatten

/-- UTF-16 encoding of a sequence of code points. -/
def encodeUtf16 (cps : List Nat) : JSString :=
  (cps.map codePointToUtf16).flatten

/-- The code points removed by the JavaScript trim method:
WhiteSpace and LineTerminator of ECMA-262. -/
def isJsWhitespace (c : Nat) : Bool :=
  c = 9 || c = 11 || c = 12 || c = 32 || c = 160 || c = 65279 ||
  c = 10 || c = 13 || c = 8232 || c = 8233 ||
  c = 5760 || (8192 ≤ c && c ≤ 8202) || c = 8239 || c = 8287 || c = 12288

/-- The JavaScript trim method: remove leading and trailing whitespace
and line terminators. -/
def jsTrim (s : JSString) : JSString :=
  ((s.dropWhile isJsWhitespace).reverse.dropWhile isJsWhitespace).reverse

namespace MainTs

/-- Record parsed from one TSV line (interface StudentActivity in src/main.ts). -/
structure StudentActivity where
  studentId : JSString
  studentName : JSString
  activityContent : JSString
deriving DecidableEq

/-- Output record (interface ObservationRecord in src/main.ts). -/
structure ObservationRecord where
  studentId : JSString
  studentName : JSString
  activityContent : JSString
  observation : JSString
  charCount : Nat
  byteCount : Nat
deriving DecidableEq

/-- countChars from src/main.ts: the length property, which counts UTF-16
code units. -/
def countChars (text : JSString) : Nat := text.length

/-- The characters that the JavaScript escape builtin leaves unescaped:
ASCII letters, digits, and the characters at-sign asterisk underscore
plus minus dot slash. -/
def isEscapeUnescaped (c : Nat) : Bool :=
  (65 ≤ c && c ≤ 90) || (97 ≤ c && c ≤ 122) || (48 ≤ c && c ≤ 57) ||
  c = 64 || c = 42 || c = 95 || c = 43 || c = 45 || c = 46 || c = 47

/-- Uppercase hexadecimal digit, as a code unit. -/
def hexDigit (n : Nat) : Nat := if n < 10 then 48 + n else 55 + n

/-- The JavaScript escape builtin applied to a one-character string holding
code unit c: the character itself if unescaped, a percent sign and two hex
digits below 256, otherwise percent-u and four hex digits. -/
def escapeChar (c : Nat) : JSString :=
  if isEscapeUnescaped c then [c]
  else if c < 256 then [37, hexDigit (c / 16), hexDigit (c % 16)]
  else [37, 117, hexDigit (c / 4096 % 16), hexDigit (c / 256 % 16),
        hexDigit (c / 16 % 16), hexDigit (c % 16)]

/-- Accumulating loop of countBytes from src/main.ts. -/
def countBytesAux : JSString → Nat → Nat
  | [], bytes => bytes
  | c :: rest, bytes =>
    if c = 10 then countBytesAux rest (bytes + 1)
    else if 4 < (escapeChar c).length then countBytesAux rest (bytes + 3)
    else countBytesAux rest (bytes + 1)

/-- countBytes from src/main.ts (NEIS byte count): a newline costs 1, a
character whose escape form is longer than 4 costs 3, anything else costs 1. -/
def countBytes (text : JSString) : Nat := countBytesAux text 0

/-- parseTSV from src/main.ts: trim the input, split into lines on the
newline code unit, split each line on tab, and keep the lines with at
least three fields. -/
def parseTSV (data : JSString) : List StudentActivity :=
  let lines := (jsTrim data).splitOn 10
  lines.foldl
    (fun activities line =>
      let parts := line.splitOn 9
      if 3 ≤ parts.length then
        activities ++ [{ studentId := jsTrim (parts.getD 0 []),
                         studentName := jsTrim (parts.getD 1 []),
                         activityContent := jsTrim (List.intercalate [32] (parts.drop 2)) }]
      else activities)
    []

/-- Replace each pipe with backslash pipe (first markdown escaping step). -/
def escapePipes (s : JSString) : JSString :=
  (s.map fun c => if c = 124 then [92, 124] else [c]).flatten

/-- Replace each newline with a space (second markdown escaping step). -/
def newlineToSpace (s : JSString) : JSString :=
  s.map fun c => if c = 10 then 32 else c

/-- Decimal digits of a natural number as code units, with structural fuel. -/
def natToDecAux : Nat → Nat → JSString → JSString
  | 0, _, acc => acc
  | fuel + 1, n, acc =>
    if n < 10 then (48 + n) :: acc
    else natToDecAux fuel (n / 10) ((48 + n % 10) :: acc)

/-- Decimal notation of a natural number as code units, as JavaScript
template interpolation renders an integer count. -/
def natToDec (n : Nat) : JSString := natToDecAux (n + 1) n []

/-- One data row of the markdown table of generateMarkdownTable. -/
def mdRow (r : ObservationRecord) : JSString :=
  utf16 "| " ++ r.studentId ++ utf16 " | " ++ r.studentName ++ utf16 " | " ++
  newlineToSpace (escapePipes r.activityContent) ++ utf16 " | " ++
  newlineToSpace (escapePipes r.observation) ++ utf16 " | " ++
  natToDec r.charCount ++ utf16 " | " ++ natToDec r.byteCount ++ utf16 " |\n"

/-- generateMarkdownTable from src/main.ts. -/
def generateMarkdownTable (records : List ObservationRecord) : JSString :=
  records.foldl (fun table r => table ++ mdRow r)
    (utf16 "| 학번 | 성명 | 학생활동기록 | 교사관찰기록 | 글자 수 | 바이트 수 |\n" ++
     utf16 "|------|------|-------------|-------------|---------|----------|\n")

/-- Replace tab, newline, and carriage return with spaces (the cell
cleaning step of generateTSVData). -/
def cleanCell (s : JSString) : JSString :=
  s.map fun c => if c = 9 || c = 10 || c = 13 then 32 else c

/-- One data row of the TSV re-export of generateTSVData. -/
def tsvRow (r : ObservationRecord) : JSString :=
  r.studentId ++ [9] ++ r.studentName ++ [9] ++ cleanCell r.activityContent ++ [9] ++
  cleanCell r.observation ++ [9] ++ natToDec r.charCount ++ [9] ++ natToDec r.byteCount ++ [10]

/-- generateTSVData from src/main.ts. -/
def generateTSVData (records : List ObservationRecord) : JSString :=
  records.foldl (fun tsv r => tsv ++ tsvRow r)
    (utf16 "학번\t성명\t학생활동기록\t교사관찰기록\t글자 수\t바이트 수\n")

/-- The placeholder observation stored when a generation call fails. -/
def failureObservation (msg : JSString) : JSString :=
  utf16 "[변환 실패: " ++ msg ++ utf16 "]"

/-- StudentActivityPlugin.processConversion from src/main.ts, abstracted
over the vendor call: gen returns the generated observation text or fails
with an error message.  Returns the ordered records and the error count. -/
def processConversion (gen : StudentActivity → Except JSString JSString)
    (activities : List StudentActivity) : List ObservationRecord × Nat :=
  activities.foldl
    (fun acc activity =>
      match gen activity with
      | Except.ok observation =>
        (acc.1 ++ [{ studentId := activity.studentId,
                     studentName := activity.studentName,
                     activityContent := activity.activityContent,
                     observation := observation,
                     charCount := countChars observation,
                     byteCount := countBytes observation }], acc.2)
      | Except.error msg =>
        (acc.1 ++ [{ studentId := activity.studentId,
                     studentName := activity.studentName,
                     activityContent := activity.activityContent,
                     observation := failureObservation msg,
                     charCount := 0,
                     byteCount := 0 }], acc.2 + 1))
    ([], 0)

end MainTs

namespace Part000

/-- The wide ranges of the byte counter of src/unnamed/part_000: Hangul
syllables, Hangul Jamo, Hangul compatibility Jamo, CJK ideographs, and
CJK compatibility ideographs. -/
def isWideCode (code : Nat) : Bool :=
  (44032 ≤ code && code ≤ 55203) || (4352 ≤ code && code ≤ 4607) ||
  (12592 ≤ code && code ≤ 12687) || (19968 ≤ code && code ≤ 40959) ||
  (63744 ≤ code && code ≤ 64255)

/-- charCodeAt(0) of the one-character string holding a code point: the
point itself in the basic plane, otherwise its high surrogate. -/
def codeAt0 (cp : Nat) : Nat :=
  if cp < 65536 then cp else 55296 + (cp - 65536) / 1024

/-- countBytes from src/unnamed/part_000: a for-of loop over code points,
3 bytes inside the wide ranges, 1 byte otherwise. -/
def countBytes (text : List Nat) : Nat :=
  text.foldl (fun bytes char => if isWideCode (codeAt0 char) then bytes + 3 else bytes + 1) 0

/-- countChars from src/unnamed/part_000: the length property counts UTF-16
code units; stated here on the code-point representation that the byte
counter of the same file iterates over. -/
def countChars (text : List Nat) : Nat := (encodeUtf16 text).length

end Part000

namespace MainTs

/-- A nonnegative IEEE-754 double, as the dyadic rational m over 2 to the e. -/
structure FP where
  m : Nat
  e : Int
deriving DecidableEq

/-- One halving pass of the bit-length computation: shift right by k when
the value still has at least k + 1 bits, accumulating the count. -/
def bitLenStep (k : Nat) (p : Nat × Nat) : Nat × Nat :=
  if 2 ^ k ≤ p.1 then (p.1 / 2 ^ k, p.2 + k) else p

/-- Bit length of a natural number below 2 to the 256, by binary
decomposition of the exponent. -/
def bitLen (n : Nat) : Nat :=
  if n = 0 then 0
  else
    (bitLenStep 1 (bitLenStep 2 (bitLenStep 4 (bitLenStep 8 (bitLenStep 16
      (bitLenStep 32 (bitLenStep 64 (bitLenStep 128 (n, 0))))))))).2 + 1

/-- Round the nonnegative dyadic m over 2 to the e to 53 significant bits,
nearest ties-to-even: IEEE-754 double rounding, away from the overflow and
subnormal ranges. -/
def roundFP (m : Nat) (e : Int) : FP :=
  if m = 0 then ⟨0, 0⟩
  else
    let L := bitLen m
    if L ≤ 53 then ⟨m, e⟩
    else
      let t := L - 53
      let q := m / 2 ^ t
      let r := m % 2 ^ t
      let half := 2 ^ (t - 1)
      ⟨if half < r || (r = half && q % 2 = 1) then q + 1 else q, e - t⟩

/-- IEEE-754 double multiplication on nonnegative doubles. -/
def fpMul (a b : FP) : FP := roundFP (a.m * b.m) (a.e + b.e)

/-- IEEE-754 double addition on nonnegative doubles. -/
def fpAdd (a b : FP) : FP :=
  let E := max a.e b.e
  roundFP (a.m * 2 ^ (E - a.e).toNat + b.m * 2 ^ (E - b.e).toNat) E

/-- The double nearest a natural number. -/
def fpOfNat (c : Nat) : FP := roundFP c 0

/-- The value of the double literal 0.8 of the source. -/
def fp08 : FP := ⟨7205759403792794, 53⟩

/-- The value of the double literal 0.2 of the source. -/
def fp02 : FP := ⟨7205759403792794, 55⟩

/-- Math.round: the integral value nearest the exact value of the double,
halves rounding up. -/
def jsRound (d : FP) : Nat :=
  if d.e ≤ 0 then d.m * 2 ^ (-d.e).toNat
  else (2 * d.m + 2 ^ d.e.toNat) / 2 ^ (d.e.toNat + 1)

/-- estimateBytes from src/main.ts: Math.round of charCount times 0.8
times 3 plus charCount times 0.2 times 1, evaluated in IEEE-754 double
arithmetic in source order. -/
def estimateBytes (charCount : Nat) : Nat :=
  let x := fpOfNat charCount
  jsRound (fpAdd (fpMul (fpMul x fp08) ⟨3, 0⟩) (fpMul (fpMul x fp02) ⟨1, 0⟩))

end MainTs

namespace MainTs

/-- Cost that the countBytes loop charges for one code unit. -/
def byteCost (c : Nat) : Nat :=
  if c = 10 then 1 else if 4 < (escapeChar c).length then 3 else 1

theorem countBytesAux_eq (text : JSString) (b : Nat) :
    countBytesAux text b = b + (text.map byteCost).sum := by
  induction text generalizing b with
  | nil => simp [countBytesAux]
  | cons c rest ih =>
    simp only [countBytesAux, byteCost, List.map_cons, List.sum_cons]
    by_cases h1 : c = 10
    · simp only [h1, if_true, ih]; omega
    · by_cases h2 : 4 < (escapeChar c).length
      · simp only [h1, h2, if_false, if_true, ih]; omega
      · simp only [h1, h2, if_false, ih]; omega

theorem countBytes_eq_sum (text : JSString) :
    countBytes text = (text.map byteCost).sum := by
  simpa using countBytesAux_eq text 0

theorem lt_of_isEscapeUnescaped (c : Nat) (h : isEscapeUnescaped c = true) : c < 256 := by
  simp only [isEscapeUnescaped, Bool.or_eq_true, Bool.and_eq_true, decide_eq_true_eq] at h
  omega

theorem four_lt_length_escapeChar (c : Nat) : 4 < (escapeChar c).length ↔ 256 ≤ c := by
  unfold escapeChar
  by_cases h1 : isEscapeUnescaped c = true
  · have hc := lt_of_isEscapeUnescaped c h1
    simp only [h1, if_true, List.length_cons, List.length_nil]
    omega
  · by_cases h2 : c < 256
    · simp [h1, h2]
    · simp [h1, h2]
      omega

theorem byteCost_eq_threshold (c : Nat) : byteCost c = if c < 256 then 1 else 3 := by
  unfold byteCost
  by_cases h1 : c = 10
  · subst h1; simp
  · by_cases h2 : 4 < (escapeChar c).length
    · have h3 := (four_lt_length_escapeChar c).mp h2
      have h4 : ¬ c < 256 := by omega
      simp [h1, h2, h4]
    · have h3 : ¬ 256 ≤ c := fun hc => h2 ((four_lt_length_escapeChar c).mpr hc)
      have h4 : c < 256 := by omega
      simp [h1, h2, h4]

/-- Wide classification of the byte counter: not a newline and the escape
form is longer than 4 characters. -/
def isWideChar (c : Nat) : Bool :=
  if c = 10 then false else decide (4 < (escapeChar c).length)

theorem byteCost_eq_wide (c : Nat) : byteCost c = if isWideChar c then 3 else 1 := by
  unfold byteCost isWideChar
  by_cases h1 : c = 10
  · simp [h1]
  · by_cases h2 : 4 < (escapeChar c).length <;> simp [h1, h2]

end MainTs

theorem sum_map_ite_three_one (p : Nat → Bool) (l : List Nat) :
    (l.map fun c => if p c then 3 else 1).sum = 3 * l.countP p + l.countP (fun c => !p c) := by
  induction l with
  | nil => simp
  | cons c t ih =>
    by_cases h : p c = true <;>
      simp [List.countP_cons, h, ih] <;> omega

theorem sum_map_eq_length {f : Nat → Nat} (l : List Nat) (h : ∀ c ∈ l, f c = 1) :
    (l.map f).sum = l.length := by
  induction l with
  | nil => simp
  | cons c t ih =>
    simp only [List.map_cons, List.sum_cons, List.length_cons,
      h c (List.mem_cons_self c t), ih fun x hx => h x (List.mem_cons_of_mem c hx)]
    omega

theorem sum_map_eq_three_mul {f : Nat → Nat} (l : List Nat) (h : ∀ c ∈ l, f c = 3) :
    (l.map f).sum = 3 * l.length := by
  induction l with
  | nil => simp
  | cons c t ih =>
    simp only [List.map_cons, List.sum_cons, List.length_cons,
      h c (List.mem_cons_self c t), ih fun x hx => h x (List.mem_cons_of_mem c hx)]
    omega

theorem length_le_sum_map {f : Nat → Nat} (l : List Nat) (h : ∀ c ∈ l, 1 ≤ f c) :
    l.length ≤ (l.map f).sum := by
  induction l with
  | nil => simp
  | cons c t ih =>
    simp only [List.map_cons, List.sum_cons, List.length_cons]
    have h1 := h c (List.mem_cons_self c t)
    have h2 := ih fun x hx => h x (List.mem_cons_of_mem c hx)
    omega

namespace Part000

theorem countBytes_eq_sum_ranges (text : List Nat) :
    countBytes text = (text.map fun ch => if isWideCode (codeAt0 ch) then 3 else 1).sum := by
  suffices h : ∀ (l : List Nat) (b : Nat),
      l.foldl (fun bytes char => if isWideCode (codeAt0 char) then bytes + 3 else bytes + 1) b =
        b + (l.map fun ch => if isWideCode (codeAt0 ch) then 3 else 1).sum by
    simpa [countBytes] using h text 0
  intro l
  induction l with
  | nil => simp
  | cons c t ih =>
    intro b
    by_cases hc : isWideCode (codeAt0 c) = true <;>
      simp [hc, ih] <;> omega

theorem countChars_of_bmp (text : List Nat) (h : ∀ cp ∈ text, cp < 65536) :
    countChars text = text.length := by
  induction text with
  | nil => rfl
  | cons c t ih =>
    have hc := h c (List.mem_cons_self c t)
    have ht := ih fun x hx => h x (List.mem_cons_of_mem c hx)
    simp only [countChars, encodeUtf16, List.map_cons, List.flatten_cons] at ht ⊢
    simp [codePointToUtf16, hc, ht]

end Part000

/-- C1: for every input string, countBytes returns the sum of per-character
costs over the UTF-16 code units of the string, where a newline costs 1
byte, any other character whose percent-encoded escape form exceeds 4
characters in length costs 3 bytes, and every remaining character costs 1
byte. -/
theorem countBytes_sums_per_character_costs (text : JSString) :
    MainTs.countBytes text =
      (text.map fun c =>
        if c = 10 then 1 else if 4 < (MainTs.escapeChar c).length then 3 else 1).sum := by
  simpa [MainTs.byteCost] using MainTs.countBytes_eq_sum text

/-- C2: countBytes charges 3 bytes for each wide character and 1 byte for
each narrow or newline character, so a string interleaving n wide and m
other characters counts 3n + m bytes; a string of ASCII letters, digits,
and punctuation has byteCount equal to charCount, and a string of Hangul
syllables has byteCount equal to 3 times charCount. -/
theorem countBytes_three_n_plus_m :
    (∀ text : JSString,
        MainTs.countBytes text =
          3 * text.countP MainTs.isWideChar + text.countP (fun c => !MainTs.isWideChar c)) ∧
    (∀ text : JSString, (∀ c ∈ text, 33 ≤ c ∧ c ≤ 126) →
        MainTs.countBytes text = MainTs.countChars text) ∧
    (∀ text : JSString, (∀ c ∈ text, 44032 ≤ c ∧ c ≤ 55203) →
        MainTs.countBytes text = 3 * MainTs.countChars text) := by
  refine ⟨fun text => ?_, fun text h => ?_, fun text h => ?_⟩
  · rw [MainTs.countBytes_eq_sum,
      List.map_congr_left fun c _ => MainTs.byteCost_eq_wide c,
      sum_map_ite_three_one]
  · rw [MainTs.countBytes_eq_sum, MainTs.countChars]
    exact sum_map_eq_length text fun c hc => by
      have h1 := h c hc
      rw [MainTs.byteCost_eq_threshold]
      have h2 : c < 256 := by omega
      simp [h2]
  · rw [MainTs.countBytes_eq_sum, MainTs.countChars]
    exact sum_map_eq_three_mul text fun c hc => by
      have h1 := h c hc
      rw [MainTs.byteCost_eq_threshold]
      have h2 : ¬ c < 256 := by omega
      simp [h2]

/-- Witness for C2 at concrete strings: an ASCII string and a Hangul
string. -/
theorem countBytes_three_n_plus_m_witness :
    MainTs.countBytes (utf16 "ab1!") = MainTs.countChars (utf16 "ab1!") ∧
    MainTs.countBytes (utf16 "한글") = 3 * MainTs.countChars (utf16 "한글") :=
  ⟨countBytes_three_n_plus_m.2.1 (utf16 "ab1!") (by decide),
   countBytes_three_n_plus_m.2.2 (utf16 "한글") (by decide)⟩

/-- C9: the escape-based countBytes of src/main.ts equals the threshold
counter charging 1 byte for every UTF-16 code unit below 256 and 3 bytes at
or above 256; in particular the Latin-1 letter U+00E9 costs 1 byte and the
Greek letter U+0391 costs 3 bytes. -/
theorem countBytes_eq_threshold_counter :
    (∀ text : JSString,
        MainTs.countBytes text = (text.map fun c => if c < 256 then 1 else 3).sum) ∧
    MainTs.countBytes [233] = 1 ∧ MainTs.countBytes [913] = 3 := by
  refine ⟨fun text => ?_, by decide, by decide⟩
  rw [MainTs.countBytes_eq_sum]
  exact congrArg List.sum (List.map_congr_left fun c _ => MainTs.byteCost_eq_threshold c)

/-- C4 counterexample: for the range-based counter of src/unnamed/part_000
the single code point U+1F600 yields charCount 2 (two UTF-16 code units)
but byteCount 1, so byteCount is not always at least charCount there. -/
theorem part000_byteCount_lt_charCount :
    ¬ (Part000.countChars [128512] ≤ Part000.countBytes [128512]) := by decide

/-- C4 amended: byteCount at least charCount holds for the escape-based
counter of src/main.ts on every string, and for the range-based counter of
src/unnamed/part_000 on every string whose code points all lie in the
basic multilingual plane. -/
theorem byteCount_ge_charCount :
    (∀ text : JSString, MainTs.countChars text ≤ MainTs.countBytes text) ∧
    (∀ text : List Nat, (∀ cp ∈ text, cp < 65536) →
        Part000.countChars text ≤ Part000.countBytes text) := by
  constructor
  · intro text
    rw [MainTs.countBytes_eq_sum, MainTs.countChars]
    exact length_le_sum_map text fun c _ => by
      rw [MainTs.byteCost_eq_threshold]; split <;> omega
  · intro text h
    rw [Part000.countBytes_eq_sum_ranges, Part000.countChars_of_bmp text h]
    exact length_le_sum_map text fun c _ => by split <;> omega

/-- Witness for C4 at a concrete basic-plane string. -/
theorem byteCount_ge_charCount_witness :
    Part000.countChars [44032, 97] ≤ Part000.countBytes [44032, 97] :=
  byteCount_ge_charCount.2 [44032, 97] (by decide)

namespace MainTs

/-- Per-line step of parseTSV: the record pushed for a line with at least
three tab-separated fields, nothing otherwise. -/
def parseLine (line : JSString) : List StudentActivity :=
  let parts := line.splitOn 9
  if 3 ≤ parts.length then
    [{ studentId := jsTrim (parts.getD 0 []),
       studentName := jsTrim (parts.getD 1 []),
       activityContent := jsTrim (List.intercalate [32] (parts.drop 2)) }]
  else []

theorem parseLine_foldl (lines : List JSString) (acc : List StudentActivity) :
    lines.foldl
      (fun activities line =>
        if 3 ≤ (line.splitOn 9).length then
          activities ++ [{ studentId := jsTrim ((line.splitOn 9).getD 0 []),
                           studentName := jsTrim ((line.splitOn 9).getD 1 []),
                           activityContent :=
                             jsTrim (List.intercalate [32] ((line.splitOn 9).drop 2)) }]
        else activities) acc
      = acc ++ lines.flatMap parseLine := by
  induction lines generalizing acc with
  | nil => simp
  | cons l rest ih =>
    rw [List.foldl_cons, List.flatMap_cons]
    by_cases h : 3 ≤ (l.splitOn 9).length
    · rw [if_pos h, ih]
      simp [parseLine, h, List.append_assoc]
    · rw [if_neg h, ih]
      simp [parseLine, h]

theorem parseTSV_eq_flatMap (data : JSString) :
    parseTSV data = ((jsTrim data).splitOn 10).flatMap parseLine := by
  have h := parseLine_foldl ((jsTrim data).splitOn 10) []
  rw [List.nil_append] at h
  exact h

end MainTs

theorem flatMap_singleton_filter {α β : Type} (p : α → Bool) (g : α → β) (f : α → List β)
    (hf : ∀ a, f a = if p a then [g a] else []) (l : List α) :
    l.flatMap f = (l.filter p).map g := by
  induction l with
  | nil => rfl
  | cons a t ih =>
    rw [List.flatMap_cons, List.filter_cons, hf a, ih]
    by_cases h : p a = true
    · simp [h]
    · simp [h]

/-- C3: parseTSV splits the (trimmed) input into lines, splits each line on
the tab character, keeps exactly the lines with at least three fields in
input order, and builds each record from the trimmed first and second
fields and the remaining fields rejoined with single spaces and trimmed;
the given single Korean line parses to exactly the stated record. -/
theorem parseTSV_filters_and_builds :
    (∀ data : JSString,
        MainTs.parseTSV data =
          (((jsTrim data).splitOn 10).filter fun l => 3 ≤ (l.splitOn 9).length).map
            fun l => { studentId := jsTrim ((l.splitOn 9).getD 0 []),
                       studentName := jsTrim ((l.splitOn 9).getD 1 []),
                       activityContent :=
                         jsTrim (List.intercalate [32] ((l.splitOn 9).drop 2)) }) ∧
    MainTs.parseTSV (utf16 "10101\t김철수\t프로젝트 활동에서 리더 역할을 맡아 팀원들을 이끌었음") =
      [{ studentId := utf16 "10101", studentName := utf16 "김철수",
         activityContent := utf16 "프로젝트 활동에서 리더 역할을 맡아 팀원들을 이끌었음" }] := by
  constructor
  · intro data
    rw [MainTs.parseTSV_eq_flatMap]
    refine flatMap_singleton_filter _ _ _ (fun l => ?_) _
    simp only [MainTs.parseLine]
    by_cases h : 3 ≤ (l.splitOn 9).length
    · simp [h]
    · simp [h]
  · decide

/-- C10: a line of two tabs yields three empty fields and is accepted as a
record of empty strings; whitespace-only fields trim to empty strings; a
line with at least three fields is never rejected; and an interior two-tab
line of a larger input parses to an all-empty record in place. -/
theorem parseTSV_accepts_empty_fields :
    MainTs.parseLine (utf16 "\t\t") =
      [{ studentId := [], studentName := [], activityContent := [] }] ∧
    MainTs.parseLine (utf16 " \t \t ") =
      [{ studentId := [], studentName := [], activityContent := [] }] ∧
    (∀ line : JSString, 3 ≤ (line.splitOn 9).length → MainTs.parseLine line ≠ []) ∧
    MainTs.parseTSV (utf16 "1\ta\tx\n\t\t\n2\tb\ty") =
      [{ studentId := utf16 "1", studentName := utf16 "a", activityContent := utf16 "x" },
       { studentId := [], studentName := [], activityContent := [] },
       { studentId := utf16 "2", studentName := utf16 "b", activityContent := utf16 "y" }] := by
  refine ⟨by decide, by decide, fun line h => ?_, by decide⟩
  simp [MainTs.parseLine, h]

/-- Witness for C10: a concrete three-field line is accepted. -/
theorem parseTSV_accepts_empty_fields_witness :
    MainTs.parseLine (utf16 "5\tn\tc") ≠ [] :=
  parseTSV_accepts_empty_fields.2.2.1 (utf16 "5\tn\tc") (by decide)

theorem foldl_append_flatten {α β : Type} (f : α → List β) (l : List α) (init : List β) :
    l.foldl (fun acc x => acc ++ f x) init = init ++ (l.map f).flatten := by
  induction l generalizing init with
  | nil => simp
  | cons a t ih =>
    rw [List.foldl_cons, ih, List.map_cons, List.flatten_cons, List.append_assoc]

namespace MainTs

/-- Lines joined with trailing newlines, the shape in which the renderers
accumulate their output. -/
def joinLines (pieces : List JSString) : JSString :=
  (pieces.map fun p => p ++ [10]).flatten

theorem splitOn_joinLines (pieces : List JSString) (h : ∀ p ∈ pieces, 10 ∉ p) :
    (joinLines pieces).splitOn 10 = pieces ++ [[]] := by
  induction pieces with
  | nil => rfl
  | cons p ps ih =>
    have hp := h p (List.mem_cons_self p ps)
    have hps := ih fun q hq => h q (List.mem_cons_of_mem p hq)
    have hshape : joinLines (p :: ps) = p ++ 10 :: joinLines ps := by
      simp [joinLines]
    rw [hshape]
    show List.splitOnP (fun x => x == 10) (p ++ 10 :: joinLines ps) = (p :: ps) ++ [[]]
    rw [List.splitOnP_first _ p
      (fun x hx => by simp only [beq_iff_eq]; intro heq; exact hp (heq ▸ hx)) 10 (by simp)
      (joinLines ps)]
    have : List.splitOnP (fun x => x == 10) (joinLines ps) = ps ++ [[]] := hps
    rw [this]
    rfl

/-- First header line of the markdown table, without its newline. -/
def mdHeader1 : JSString :=
  utf16 "| 학번 | 성명 | 학생활동기록 | 교사관찰기록 | 글자 수 | 바이트 수 |"

/-- Second header line of the markdown table, without its newline. -/
def mdHeader2 : JSString :=
  utf16 "|------|------|-------------|-------------|---------|----------|"

/-- One markdown data row without its trailing newline. -/
def mdRowBody (r : ObservationRecord) : JSString :=
  utf16 "| " ++ r.studentId ++ utf16 " | " ++ r.studentName ++ utf16 " | " ++
  newlineToSpace (escapePipes r.activityContent) ++ utf16 " | " ++
  newlineToSpace (escapePipes r.observation) ++ utf16 " | " ++
  natToDec r.charCount ++ utf16 " | " ++ natToDec r.byteCount ++ utf16 " |"

theorem mdRow_eq (r : ObservationRecord) : mdRow r = mdRowBody r ++ [10] := by
  have h : utf16 " |\n" = utf16 " |" ++ [10] := by decide
  simp only [mdRow, mdRowBody, h, List.append_assoc]

theorem generateMarkdownTable_eq (records : List ObservationRecord) :
    generateMarkdownTable records =
      joinLines (mdHeader1 :: mdHeader2 :: records.map mdRowBody) := by
  have h1 : utf16 "| 학번 | 성명 | 학생활동기록 | 교사관찰기록 | 글자 수 | 바이트 수 |\n"
      = mdHeader1 ++ [10] := by decide
  have h2 : utf16 "|------|------|-------------|-------------|---------|----------|\n"
      = mdHeader2 ++ [10] := by decide
  rw [generateMarkdownTable, foldl_append_flatten, h1, h2]
  have h3 : records.map mdRow = records.map fun r => mdRowBody r ++ [10] :=
    List.map_congr_left fun r _ => mdRow_eq r
  rw [h3]
  simp [joinLines, List.append_assoc, Function.comp_def]

theorem newlineToSpace_no_newline (s : JSString) : 10 ∉ newlineToSpace s := by
  simp only [newlineToSpace, List.mem_map, not_exists]
  rintro c ⟨hc, heq⟩
  by_cases h : c = 10 <;> simp [h] at heq

theorem natToDecAux_digits (fuel : Nat) :
    ∀ (n : Nat) (acc : JSString), (∀ d ∈ acc, 48 ≤ d ∧ d ≤ 57) →
      ∀ d ∈ natToDecAux fuel n acc, 48 ≤ d ∧ d ≤ 57 := by
  induction fuel with
  | zero => intro n acc hacc d hd; exact hacc d hd
  | succ fuel ih =>
    intro n acc hacc d hd
    rw [natToDecAux] at hd
    by_cases hn : n < 10
    · rw [if_pos hn] at hd
      rcases List.mem_cons.mp hd with h | h
      · omega
      · exact hacc d h
    · rw [if_neg hn] at hd
      refine ih (n / 10) _ (fun x hx => ?_) d hd
      rcases List.mem_cons.mp hx with h | h
      · have := Nat.mod_lt n (show 0 < 10 by omega)
        omega
      · exact hacc x h

theorem natToDec_digits (n : Nat) : ∀ d ∈ natToDec n, 48 ≤ d ∧ d ≤ 57 :=
  natToDecAux_digits (n + 1) n [] (by simp)

theorem natToDec_no_newline (n : Nat) : 10 ∉ natToDec n := by
  intro h
  have := natToDec_digits n 10 h
  omega

theorem mdRowBody_no_newline (r : ObservationRecord) (hid : 10 ∉ r.studentId)
    (hname : 10 ∉ r.studentName) : 10 ∉ mdRowBody r := by
  simp only [mdRowBody, List.append_assoc, List.mem_append, not_or]
  exact ⟨by decide, hid, by decide, hname, by decide, newlineToSpace_no_newline _, by decide,
    newlineToSpace_no_newline _, by decide, natToDec_no_newline _, by decide,
    natToDec_no_newline _, by decide⟩

theorem splitOn_generateMarkdownTable (records : List ObservationRecord)
    (h : ∀ r ∈ records, 10 ∉ r.studentId ∧ 10 ∉ r.studentName) :
    (generateMarkdownTable records).splitOn 10 =
      mdHeader1 :: mdHeader2 :: records.map mdRowBody ++ [[]] := by
  rw [generateMarkdownTable_eq, splitOn_joinLines]
  intro p hp
  rcases List.mem_cons.mp hp with h1 | hp
  · subst h1; decide
  rcases List.mem_cons.mp hp with h2 | hp
  · subst h2; decide
  obtain ⟨r, hr, rfl⟩ := List.mem_map.mp hp
  exact mdRowBody_no_newline r (h r hr).1 (h r hr).2

/-- The record that processConversion pushes for one activity. -/
def recordFor (gen : StudentActivity → Except JSString JSString)
    (activity : StudentActivity) : ObservationRecord :=
  match gen activity with
  | Except.ok observation =>
    { studentId := activity.studentId, studentName := activity.studentName,
      activityContent := activity.activityContent, observation := observation,
      charCount := countChars observation, byteCount := countBytes observation }
  | Except.error msg =>
    { studentId := activity.studentId, studentName := activity.studentName,
      activityContent := activity.activityContent, observation := failureObservation msg,
      charCount := 0, byteCount := 0 }

/-- Whether the generation call for an activity fails. -/
def genFails (gen : StudentActivity → Except JSString JSString)
    (activity : StudentActivity) : Bool :=
  match gen activity with
  | Except.ok _ => false
  | Except.error _ => true

theorem processConversion_foldl (gen : StudentActivity → Except JSString JSString)
    (activities : List StudentActivity) (acc : List ObservationRecord × Nat) :
    activities.foldl
      (fun acc activity =>
        match gen activity with
        | Except.ok observation =>
          (acc.1 ++ [{ studentId := activity.studentId,
                       studentName := activity.studentName,
                       activityContent := activity.activityContent,
                       observation := observation,
                       charCount := countChars observation,
                       byteCount := countBytes observation }], acc.2)
        | Except.error msg =>
          (acc.1 ++ [{ studentId := activity.studentId,
                       studentName := activity.studentName,
                       activityContent := activity.activityContent,
                       observation := failureObservation msg,
                       charCount := 0,
                       byteCount := 0 }], acc.2 + 1)) acc
      = (acc.1 ++ activities.map (recordFor gen), acc.2 + activities.countP (genFails gen)) := by
  induction activities generalizing acc with
  | nil => simp
  | cons a t ih =>
    rw [List.foldl_cons]
    cases hg : gen a with
    | ok obs =>
      rw [ih]
      simp [recordFor, genFails, hg, List.countP_cons, List.append_assoc, Prod.ext_iff]
    | error msg =>
      rw [ih]
      simp [recordFor, genFails, hg, List.countP_cons, List.append_assoc, Prod.ext_iff]
      omega

theorem processConversion_eq (gen : StudentActivity → Except JSString JSString)
    (activities : List StudentActivity) :
    processConversion gen activities =
      (activities.map (recordFor gen), activities.countP (genFails gen)) := by
  have h := processConversion_foldl gen activities ([], 0)
  simp only [List.nil_append, Nat.zero_add] at h
  exact h

end MainTs

namespace MainTs

theorem recordFor_studentId (gen : StudentActivity → Except JSString JSString)
    (a : StudentActivity) : (recordFor gen a).studentId = a.studentId := by
  unfold recordFor; cases gen a <;> rfl

theorem recordFor_studentName (gen : StudentActivity → Except JSString JSString)
    (a : StudentActivity) : (recordFor gen a).studentName = a.studentName := by
  unfold recordFor; cases gen a <;> rfl

theorem recordFor_activityContent (gen : StudentActivity → Except JSString JSString)
    (a : StudentActivity) : (recordFor gen a).activityContent = a.activityContent := by
  unfold recordFor; cases gen a <;> rfl

end MainTs

/-- C5: when every generation call of a batch fails, the pipeline yields
exactly one record per input, each carrying the failure placeholder
observation and zero character and byte counts, reports an error count
equal to the batch size, and the markdown report still renders with one
table line per record plus the two header lines and a trailing empty
line. -/
theorem processConversion_all_failures
    (gen : MainTs.StudentActivity → Except JSString JSString)
    (activities : List MainTs.StudentActivity)
    (hfail : ∀ a ∈ activities, ∃ msg, gen a = Except.error msg)
    (hid : ∀ a ∈ activities, 10 ∉ a.studentId ∧ 10 ∉ a.studentName) :
    (MainTs.processConversion gen activities).1.length = activities.length ∧
    (MainTs.processConversion gen activities).2 = activities.length ∧
    (∀ r ∈ (MainTs.processConversion gen activities).1,
        r.charCount = 0 ∧ r.byteCount = 0 ∧
        ∃ msg, r.observation = MainTs.failureObservation msg) ∧
    ((MainTs.generateMarkdownTable
        (MainTs.processConversion gen activities).1).splitOn 10).length
      = activities.length + 3 := by
  rw [MainTs.processConversion_eq]
  refine ⟨by simp, ?_, ?_, ?_⟩
  · exact List.countP_eq_length.mpr fun a ha => by
      obtain ⟨msg, hmsg⟩ := hfail a ha
      simp [MainTs.genFails, hmsg]
  · intro r hr
    obtain ⟨a, ha, rfl⟩ := List.mem_map.mp hr
    obtain ⟨msg, hmsg⟩ := hfail a ha
    refine ⟨?_, ?_, msg, ?_⟩ <;> simp [MainTs.recordFor, hmsg]
  · rw [MainTs.splitOn_generateMarkdownTable]
    · simp
    · intro r hr
      obtain ⟨a, ha, rfl⟩ := List.mem_map.mp hr
      rw [MainTs.recordFor_studentId, MainTs.recordFor_studentName]
      exact hid a ha

/-- Witness for C5: a one-element batch whose only call fails yields error
count 1. -/
theorem processConversion_all_failures_witness :
    (MainTs.processConversion (fun _ => Except.error (utf16 "api error"))
        [{ studentId := utf16 "1", studentName := utf16 "kim",
           activityContent := utf16 "act" }]).2 = 1 :=
  (processConversion_all_failures _ _ (fun _ _ => ⟨utf16 "api error", rfl⟩)
    (by decide)).2.1

/-- C6: for every generator and every input sequence, the pipeline emits
exactly one record per input record, the identifying fields of the output
sequence match the input sequence in order, and the markdown table renders
exactly those records as data rows in the same order between its two
header lines. -/
theorem processConversion_preserves_order
    (gen : MainTs.StudentActivity → Except JSString JSString)
    (activities : List MainTs.StudentActivity)
    (hid : ∀ a ∈ activities, 10 ∉ a.studentId ∧ 10 ∉ a.studentName) :
    (MainTs.processConversion gen activities).1.length = activities.length ∧
    (MainTs.processConversion gen activities).1.map
        (fun r => (r.studentId, r.studentName, r.activityContent))
      = activities.map (fun a => (a.studentId, a.studentName, a.activityContent)) ∧
    (MainTs.generateMarkdownTable (MainTs.processConversion gen activities).1).splitOn 10
      = MainTs.mdHeader1 :: MainTs.mdHeader2 ::
          (MainTs.processConversion gen activities).1.map MainTs.mdRowBody ++ [[]] := by
  rw [MainTs.processConversion_eq]
  refine ⟨by simp, ?_, ?_⟩
  · rw [List.map_map]
    exact List.map_congr_left fun a _ => by
      simp [Function.comp_def, MainTs.recordFor_studentId, MainTs.recordFor_studentName,
        MainTs.recordFor_activityContent]
  · rw [MainTs.splitOn_generateMarkdownTable]
    intro r hr
    obtain ⟨a, ha, rfl⟩ := List.mem_map.mp hr
    rw [MainTs.recordFor_studentId, MainTs.recordFor_studentName]
    exact hid a ha

/-- Witness for C6: a one-element batch yields one record. -/
theorem processConversion_preserves_order_witness :
    (MainTs.processConversion (fun _ => Except.ok (utf16 "obs"))
        [{ studentId := utf16 "1", studentName := utf16 "kim",
           activityContent := utf16 "act" }]).1.length = 1 :=
  (processConversion_preserves_order _ _ (by decide)).1

theorem dropWhile_eq_self_of_head (p : Nat → Bool) (l : JSString)
    (h : ∀ c, l.head? = some c → p c = false) : l.dropWhile p = l := by
  cases l with
  | nil => rfl
  | cons c t =>
    rw [List.dropWhile_cons, h c rfl]
    simp

theorem jsTrim_append_newline (X : JSString) (hne : X ≠ [])
    (hhead : ∀ c, X.head? = some c → isJsWhitespace c = false)
    (hlast : ∀ d, X.getLast? = some d → isJsWhitespace d = false) :
    jsTrim (X ++ [10]) = X := by
  unfold jsTrim
  have h1 : (X ++ [10]).dropWhile isJsWhitespace = X ++ [10] := by
    apply dropWhile_eq_self_of_head
    intro c hc
    rw [List.head?_append] at hc
    cases hX : X.head? with
    | none => exact absurd (List.head?_eq_none_iff.mp hX) hne
    | some c0 =>
      rw [hX] at hc
      have hc0 : c0 = c := by
        have : (some c0).or ([10] : JSString).head? = some c0 := rfl
        rw [this] at hc
        exact Option.some.inj hc
      exact hc0 ▸ hhead c0 hX
  rw [h1]
  have h2 : (X ++ [10]).reverse = 10 :: X.reverse := by
    rw [List.reverse_append]
    rfl
  rw [h2, List.dropWhile_cons]
  have h10 : isJsWhitespace 10 = true := rfl
  rw [h10]
  simp only [if_true]
  have h3 : X.reverse.dropWhile isJsWhitespace = X.reverse := by
    apply dropWhile_eq_self_of_head
    intro c hc
    rw [List.head?_reverse] at hc
    exact hlast c hc
  rw [h3, List.reverse_reverse]

theorem intercalate_cons_head (p : JSString) (ps : List JSString) :
    ∃ Y, List.intercalate [10] (p :: ps) = p ++ Y := by
  cases ps with
  | nil => exact ⟨[], by simp [List.intercalate]⟩
  | cons q ps2 =>
    refine ⟨[10] ++ (List.intersperse [10] (q :: ps2)).flatten, ?_⟩
    unfold List.intercalate
    rw [List.intersperse_cons_cons, List.flatten_cons, List.flatten_cons]

theorem intercalate_concat_last (ps : List JSString) (q : JSString) :
    ∃ Z, List.intercalate [10] (ps ++ [q]) = Z ++ q := by
  induction ps with
  | nil => exact ⟨[], by simp [List.intercalate]⟩
  | cons p ps2 ih =>
    obtain ⟨Z, hZ⟩ := ih
    cases ps2 with
    | nil =>
      refine ⟨p ++ [10], ?_⟩
      unfold List.intercalate
      rw [show ([p] ++ [q] : List JSString) = p :: q :: [] from rfl,
        List.intersperse_cons_cons]
      simp [List.append_assoc]
    | cons r rest =>
      refine ⟨p ++ [10] ++ Z, ?_⟩
      unfold List.intercalate at hZ ⊢
      rw [show ((p :: r :: rest) ++ [q] : List JSString) = p :: r :: (rest ++ [q]) from rfl,
        List.intersperse_cons_cons, List.flatten_cons, List.flatten_cons]
      rw [show ((r :: rest) ++ [q] : List JSString) = r :: (rest ++ [q]) from rfl] at hZ
      rw [hZ]
      simp [List.append_assoc]

namespace MainTs

theorem joinLines_eq_intercalate_newline (pieces : List JSString) (hne : pieces ≠ []) :
    joinLines pieces = List.intercalate [10] pieces ++ [10] := by
  induction pieces with
  | nil => exact absurd rfl hne
  | cons p ps ih =>
    cases ps with
    | nil => simp [joinLines, List.intercalate]
    | cons q ps2 =>
      have h := ih (by simp)
      have hjl : joinLines (p :: q :: ps2) = (p ++ [10]) ++ joinLines (q :: ps2) := by
        simp [joinLines]
      rw [hjl, h]
      unfold List.intercalate
      rw [List.intersperse_cons_cons, List.flatten_cons, List.flatten_cons]
      simp [List.append_assoc]

/-- Header line of the TSV re-export, without its newline. -/
def tsvHeader : JSString :=
  utf16 "학번\t성명\t학생활동기록\t교사관찰기록\t글자 수\t바이트 수"

/-- One TSV data row without its trailing newline. -/
def tsvRowBody (r : ObservationRecord) : JSString :=
  r.studentId ++ [9] ++ r.studentName ++ [9] ++ cleanCell r.activityContent ++ [9] ++
  cleanCell r.observation ++ [9] ++ natToDec r.charCount ++ [9] ++ natToDec r.byteCount

theorem tsvRow_eq (r : ObservationRecord) : tsvRow r = tsvRowBody r ++ [10] := by
  simp only [tsvRow, tsvRowBody, List.append_assoc]

theorem generateTSVData_eq (records : List ObservationRecord) :
    generateTSVData records = joinLines (tsvHeader :: records.map tsvRowBody) := by
  have h1 : utf16 "학번\t성명\t학생활동기록\t교사관찰기록\t글자 수\t바이트 수\n"
      = tsvHeader ++ [10] := by decide
  rw [generateTSVData, foldl_append_flatten, h1]
  have h3 : records.map tsvRow = records.map fun r => tsvRowBody r ++ [10] :=
    List.map_congr_left fun r _ => tsvRow_eq r
  rw [h3]
  simp [joinLines, List.append_assoc, Function.comp_def]

theorem cleanCell_no_tab (s : JSString) : 9 ∉ cleanCell s := by
  simp only [cleanCell, List.mem_map, not_exists]
  rintro c ⟨hc, heq⟩
  by_cases h : c = 9 <;> by_cases h2 : c = 10 <;> by_cases h3 : c = 13 <;>
    simp [h, h2, h3] at heq

theorem cleanCell_no_newline (s : JSString) : 10 ∉ cleanCell s := by
  simp only [cleanCell, List.mem_map, not_exists]
  rintro c ⟨hc, heq⟩
  by_cases h : c = 9 <;> by_cases h2 : c = 10 <;> by_cases h3 : c = 13 <;>
    simp [h, h2, h3] at heq

theorem natToDec_no_tab (n : Nat) : 9 ∉ natToDec n := by
  intro h
  have := natToDec_digits n 9 h
  omega

theorem natToDecAux_ne_nil (fuel : Nat) :
    ∀ (n : Nat) (acc : JSString), acc ≠ [] → natToDecAux fuel n acc ≠ [] := by
  induction fuel with
  | zero => intro n acc hacc; exact hacc
  | succ fuel ih =>
    intro n acc hacc
    rw [natToDecAux]
    by_cases hn : n < 10
    · rw [if_pos hn]; simp
    · rw [if_neg hn]; exact ih _ _ (by simp)

theorem natToDec_ne_nil (n : Nat) : natToDec n ≠ [] := by
  unfold natToDec natToDecAux
  by_cases hn : n < 10
  · rw [if_pos hn]; simp
  · rw [if_neg hn]; exact natToDecAux_ne_nil _ _ _ (by simp)

theorem tsvRowBody_no_newline (r : ObservationRecord) (hid : 10 ∉ r.studentId)
    (hname : 10 ∉ r.studentName) : 10 ∉ tsvRowBody r := by
  simp only [tsvRowBody, List.append_assoc, List.mem_append, not_or]
  exact ⟨hid, by decide, hname, by decide, cleanCell_no_newline _, by decide,
    cleanCell_no_newline _, by decide, natToDec_no_newline _, by decide,
    natToDec_no_newline _⟩

theorem splitOn_tab_first (a rest : JSString) (h : 9 ∉ a) :
    (a ++ 9 :: rest).splitOn 9 = a :: rest.splitOn 9 := by
  show List.splitOnP (fun x => x == 9) (a ++ 9 :: rest)
      = a :: List.splitOnP (fun x => x == 9) rest
  exact List.splitOnP_first _ a
    (fun x hx => by simp only [beq_iff_eq]; intro heq; exact h (heq ▸ hx)) 9 (by simp) rest

theorem splitOn_no_tab (a : JSString) (h : 9 ∉ a) : a.splitOn 9 = [a] := by
  show List.splitOnP (fun x => x == 9) a = [a]
  exact List.splitOnP_eq_single _ a
    fun x hx => by simp only [beq_iff_eq]; intro heq; exact h (heq ▸ hx)

theorem splitOn_tsvRowBody (r : ObservationRecord) (hid : 9 ∉ r.studentId)
    (hname : 9 ∉ r.studentName) :
    (tsvRowBody r).splitOn 9 =
      [r.studentId, r.studentName, cleanCell r.activityContent, cleanCell r.observation,
       natToDec r.charCount, natToDec r.byteCount] := by
  have hshape : tsvRowBody r =
      r.studentId ++ 9 :: (r.studentName ++ 9 :: (cleanCell r.activityContent ++
        9 :: (cleanCell r.observation ++ 9 :: (natToDec r.charCount ++
          9 :: natToDec r.byteCount)))) := by
    simp [tsvRowBody, List.append_assoc]
  rw [hshape, splitOn_tab_first _ _ hid, splitOn_tab_first _ _ hname,
    splitOn_tab_first _ _ (cleanCell_no_tab _), splitOn_tab_first _ _ (cleanCell_no_tab _),
    splitOn_tab_first _ _ (natToDec_no_tab _), splitOn_no_tab _ (natToDec_no_tab _)]

theorem parseLine_tsvRowBody (r : ObservationRecord) (hid9 : 9 ∉ r.studentId)
    (hname9 : 9 ∉ r.studentName) (hidT : jsTrim r.studentId = r.studentId)
    (hnameT : jsTrim r.studentName = r.studentName) :
    parseLine (tsvRowBody r) =
      [{ studentId := r.studentId, studentName := r.studentName,
         activityContent := jsTrim (List.intercalate [32]
           [cleanCell r.activityContent, cleanCell r.observation,
            natToDec r.charCount, natToDec r.byteCount]) }] := by
  simp only [parseLine, splitOn_tsvRowBody r hid9 hname9]
  rw [if_pos (by simp)]
  simp [hidT, hnameT]

theorem parseLine_tsvHeader :
    parseLine tsvHeader =
      [{ studentId := utf16 "학번", studentName := utf16 "성명",
         activityContent := utf16 "학생활동기록 교사관찰기록 글자 수 바이트 수" }] := by
  decide

end MainTs

theorem digit_not_ws (d : Nat) (h1 : 48 ≤ d) (h2 : d ≤ 57) : isJsWhitespace d = false := by
  interval_cases d <;> decide

namespace MainTs

theorem tsvRowBody_ne_nil (r : ObservationRecord) : tsvRowBody r ≠ [] := by
  unfold tsvRowBody
  exact List.append_ne_nil_of_right_ne_nil _ (natToDec_ne_nil _)

theorem getLast_tsvRowBody_digit (r : ObservationRecord) (d : Nat)
    (hd : (tsvRowBody r).getLast? = some d) : 48 ≤ d ∧ d ≤ 57 := by
  unfold tsvRowBody at hd
  rw [List.getLast?_append] at hd
  cases hl : (natToDec r.byteCount).getLast? with
  | none => exact absurd (List.getLast?_eq_none_iff.mp hl) (natToDec_ne_nil _)
  | some d0 =>
    rw [hl] at hd
    have hdd : d0 = d := Option.some.inj hd
    subst hdd
    exact natToDec_digits _ d0 (List.mem_of_mem_getLast? (by rw [hl]; exact rfl))

theorem flatMap_parseLine_rows (records : List ObservationRecord)
    (h : ∀ r ∈ records,
        (9 ∉ r.studentId ∧ jsTrim r.studentId = r.studentId) ∧
        (9 ∉ r.studentName ∧ jsTrim r.studentName = r.studentName)) :
    ((records.map tsvRowBody).flatMap parseLine).map
        (fun a => (a.studentId, a.studentName))
      = records.map fun r => (r.studentId, r.studentName) := by
  induction records with
  | nil => rfl
  | cons r rest ih =>
    have hr := h r (List.mem_cons_self r rest)
    rw [List.map_cons, List.flatMap_cons,
      parseLine_tsvRowBody r hr.1.1 hr.2.1 hr.1.2 hr.2.2,
      List.singleton_append, List.map_cons, List.map_cons,
      ih fun x hx => h x (List.mem_cons_of_mem r hx)]

end MainTs

/-- C7 counterexample: the TSV re-export begins with a header line that
itself parses as a record, so re-parsing a one-record export yields the
header pair followed by the data pair rather than the original pairs
alone. -/
theorem parse_reexport_pairs_counterexample :
    (MainTs.parseTSV (MainTs.generateTSVData
        [{ studentId := utf16 "10101", studentName := utf16 "김철수",
           activityContent := utf16 "활동", observation := utf16 "관찰",
           charCount := 2, byteCount := 6 }])).map
        (fun a => (a.studentId, a.studentName))
      ≠ [(utf16 "10101", utf16 "김철수")] := by decide

/-- C7 amended: for every record sequence whose ids and names contain no
tab or newline and are invariant under trimming, parsing the TSV re-export
yields the header pair followed by exactly the original pairs of
(studentId, studentName) in order. -/
theorem parse_reexport_pairs (records : List MainTs.ObservationRecord)
    (h : ∀ r ∈ records,
        (9 ∉ r.studentId ∧ 10 ∉ r.studentId ∧ jsTrim r.studentId = r.studentId) ∧
        (9 ∉ r.studentName ∧ 10 ∉ r.studentName ∧ jsTrim r.studentName = r.studentName)) :
    (MainTs.parseTSV (MainTs.generateTSVData records)).map
        (fun a => (a.studentId, a.studentName))
      = (utf16 "학번", utf16 "성명") ::
          (records.map fun r => (r.studentId, r.studentName)) := by
  have hfree : ∀ p ∈ MainTs.tsvHeader :: records.map MainTs.tsvRowBody, (10 : Nat) ∉ p := by
    intro p hp
    rcases List.mem_cons.mp hp with rfl | hp
    · decide
    · obtain ⟨r, hr, rfl⟩ := List.mem_map.mp hp
      exact MainTs.tsvRowBody_no_newline r (h r hr).1.2.1 (h r hr).2.2.1
  obtain ⟨Y, hY⟩ := intercalate_cons_head MainTs.tsvHeader (records.map MainTs.tsvRowBody)
  have hne : List.intercalate [10]
      (MainTs.tsvHeader :: records.map MainTs.tsvRowBody) ≠ [] := by
    rw [hY]
    intro hcon
    exact absurd (List.append_eq_nil.mp hcon).1 (by decide)
  have hhead : ∀ c, (List.intercalate [10]
      (MainTs.tsvHeader :: records.map MainTs.tsvRowBody)).head? = some c →
      isJsWhitespace c = false := by
    intro c hc
    rw [hY, List.head?_append] at hc
    have hth : MainTs.tsvHeader.head? = some 54617 := by decide
    rw [hth] at hc
    have hce : (54617 : Nat) = c := Option.some.inj hc
    subst hce
    decide
  have hlast : ∀ d, (List.intercalate [10]
      (MainTs.tsvHeader :: records.map MainTs.tsvRowBody)).getLast? = some d →
      isJsWhitespace d = false := by
    intro d hd
    rcases List.eq_nil_or_concat records with rfl | ⟨rs, rlast, rfl⟩
    · simp only [List.map_nil] at hd
      have hsing : List.intercalate [10] [MainTs.tsvHeader] = MainTs.tsvHeader := by
        simp [List.intercalate]
      rw [hsing] at hd
      have hth : MainTs.tsvHeader.getLast? = some 49688 := by decide
      rw [hth] at hd
      have hde : (49688 : Nat) = d := Option.some.inj hd
      subst hde
      decide
    · simp only [List.concat_eq_append, List.map_append, List.map_cons, List.map_nil] at hd
      have hsh : MainTs.tsvHeader ::
          (rs.map MainTs.tsvRowBody ++ [MainTs.tsvRowBody rlast])
          = (MainTs.tsvHeader :: rs.map MainTs.tsvRowBody) ++ [MainTs.tsvRowBody rlast] :=
        rfl
      rw [hsh] at hd
      obtain ⟨Z, hZ⟩ := intercalate_concat_last
        (MainTs.tsvHeader :: rs.map MainTs.tsvRowBody) (MainTs.tsvRowBody rlast)
      rw [hZ, List.getLast?_append] at hd
      cases hgl : (MainTs.tsvRowBody rlast).getLast? with
      | none =>
        exact absurd (List.getLast?_eq_none_iff.mp hgl) (MainTs.tsvRowBody_ne_nil _)
      | some d0 =>
        rw [hgl] at hd
        have hdd : d0 = d := Option.some.inj hd
        subst hdd
        obtain ⟨h48, h57⟩ := MainTs.getLast_tsvRowBody_digit rlast d0 hgl
        exact digit_not_ws d0 h48 h57
  rw [MainTs.parseTSV_eq_flatMap, MainTs.generateTSVData_eq,
    MainTs.joinLines_eq_intercalate_newline _ (by simp),
    jsTrim_append_newline _ hne hhead hlast,
    List.splitOn_intercalate _ 10 hfree (by simp),
    List.flatMap_cons, MainTs.parseLine_tsvHeader, List.singleton_append, List.map_cons,
    MainTs.flatMap_parseLine_rows records fun r hr =>
      ⟨⟨(h r hr).1.1, (h r hr).1.2.2⟩, ⟨(h r hr).2.1, (h r hr).2.2.2⟩⟩]

/-- Witness for C7 at a concrete one-record export. -/
theorem parse_reexport_pairs_witness :
    (MainTs.parseTSV (MainTs.generateTSVData
        [{ studentId := utf16 "10101", studentName := utf16 "Kim",
           activityContent := utf16 "a", observation := utf16 "b",
           charCount := 1, byteCount := 1 }])).map
        (fun a => (a.studentId, a.studentName))
      = (utf16 "학번", utf16 "성명") :: [(utf16 "10101", utf16 "Kim")] :=
  parse_reexport_pairs _ (by decide)

set_option maxRecDepth 200000

set_option maxHeartbeats 1000000

theorem estimateBytes_chunk0 : ∀ c < 201, MainTs.estimateBytes c = (26 * c + 5) / 10 := by decide

theorem estimateBytes_chunk1 : ∀ c < 200, MainTs.estimateBytes (c + 201) = (26 * (c + 201) + 5) / 10 := by decide

theorem estimateBytes_chunk2 : ∀ c < 200, MainTs.estimateBytes (c + 401) = (26 * (c + 401) + 5) / 10 := by decide

theorem estimateBytes_chunk3 : ∀ c < 200, MainTs.estimateBytes (c + 601) = (26 * (c + 601) + 5) / 10 := by decide

theorem estimateBytes_chunk4 : ∀ c < 200, MainTs.estimateBytes (c + 801) = (26 * (c + 801) + 5) / 10 := by decide

theorem estimateBytes_chunk5 : ∀ c < 200, MainTs.estimateBytes (c + 1001) = (26 * (c + 1001) + 5) / 10 := by decide

theorem estimateBytes_chunk6 : ∀ c < 200, MainTs.estimateBytes (c + 1201) = (26 * (c + 1201) + 5) / 10 := by decide

theorem estimateBytes_chunk7 : ∀ c < 200, MainTs.estimateBytes (c + 1401) = (26 * (c + 1401) + 5) / 10 := by decide

theorem estimateBytes_chunk8 : ∀ c < 200, MainTs.estimateBytes (c + 1601) = (26 * (c + 1601) + 5) / 10 := by decide

theorem estimateBytes_chunk9 : ∀ c < 200, MainTs.estimateBytes (c + 1801) = (26 * (c + 1801) + 5) / 10 := by decide

/-- C8 counterexample: at c = 422217476712934 the double-precision
evaluation of Math.round(c * 0.8 * 3 + c * 0.2 * 1) yields
1097765439453629, one more than the exact rounding (26 c + 5) / 10 =
1097765439453628, so the claim fails for that non-negative integer. -/
theorem estimateBytes_fp_counterexample :
    MainTs.estimateBytes 422217476712934 ≠ (26 * 422217476712934 + 5) / 10 := by decide

/-- C8 amended: estimateBytes c equals the exact rounding of
c times 0.8 times 3 plus c times 0.2 times 1 — which equals
(26 c + 5) / 10 in integer arithmetic, since 13 c / 5 is never
half-integral — for every c up to 2000, covering the whole configurable
target range; for very large counts the double-precision evaluation
differs from the exact rounding (see the counterexample). -/
theorem estimateBytes_eq_round (c : Nat) (hc : c ≤ 2000) :
    MainTs.estimateBytes c = (26 * c + 5) / 10 := by
  rcases Nat.lt_or_ge c 201 with h0 | h0
  · exact estimateBytes_chunk0 c h0
  rcases Nat.lt_or_ge c 401 with h1 | h1
  · have he : c = (c - 201) + 201 := by omega
    rw [he]
    exact estimateBytes_chunk1 _ (by omega)
  rcases Nat.lt_or_ge c 601 with h2 | h2
  · have he : c = (c - 401) + 401 := by omega
    rw [he]
    exact estimateBytes_chunk2 _ (by omega)
  rcases Nat.lt_or_ge c 801 with h3 | h3
  · have he : c = (c - 601) + 601 := by omega
    rw [he]
    exact estimateBytes_chunk3 _ (by omega)
  rcases Nat.lt_or_ge c 1001 with h4 | h4
  · have he : c = (c - 801) + 801 := by omega
    rw [he]
    exact estimateBytes_chunk4 _ (by omega)
  rcases Nat.lt_or_ge c 1201 with h5 | h5
  · have he : c = (c - 1001) + 1001 := by omega
    rw [he]
    exact estimateBytes_chunk5 _ (by omega)
  rcases Nat.lt_or_ge c 1401 with h6 | h6
  · have he : c = (c - 1201) + 1201 := by omega
    rw [he]
    exact estimateBytes_chunk6 _ (by omega)
  rcases Nat.lt_or_ge c 1601 with h7 | h7
  · have he : c = (c - 1401) + 1401 := by omega
    rw [he]
    exact estimateBytes_chunk7 _ (by omega)
  rcases Nat.lt_or_ge c 1801 with h8 | h8
  · have he : c = (c - 1601) + 1601 := by omega
    rw [he]
    exact estimateBytes_chunk8 _ (by omega)
  have he : c = (c - 1801) + 1801 := by omega
  rw [he]
  exact estimateBytes_chunk9 _ (by omega)

/-- Witness for C8 at the documented example: estimateBytes 500 = 1300. -/
theorem estimateBytes_eq_round_witness : MainTs.estimateBytes 500 = 1300 :=
  estimateBytes_eq_round 500 (by omega)
